import Mathlib

/-!
Shallow embedding of the UltraBalancer advanced core
(`src/core/lb_core_advanced.c`): status codes, the backend registry,
`lb_core_add_backend`, the two selection strategies, the strategy
factory and the creation path, together with theorems about them.

Machine integers are modelled as `Nat`; wraparound of the 32-bit atomic
round-robin cursor is made explicit with `% U32_MOD`.  Fallible C calls
(`calloc`, `epoll_create1`, ...) are modelled by explicit success flags.
-/

namespace UltraBalancer

/-- `2^32`, the modulus of C `uint32_t` arithmetic (`atomic_uint` cursor). -/
def U32_MOD : Nat := 2 ^ 32

/-- `UINT32_MAX = 2^32 - 1`, the sentinel the least-connections scan starts from. -/
def UINT32_MAX : Nat := 2 ^ 32 - 1

/-- `MAX_BACKENDS` from `lb_core_advanced.c` (default 256). -/
def MAX_BACKENDS : Nat := 256

/-- `lb_status_t` from `lb_core_advanced.c`. -/
inductive LbStatus where
  | LB_OK
  | LB_ERR_NOMEM
  | LB_ERR_SYS
  | LB_ERR_INVAL
  | LB_ERR_STATE
  | LB_ERR_LIMIT
  | LB_ERR_EMPTY
deriving DecidableEq, Repr

/-- Modelled from the spec: the backend health states of `backend_t`, a type
declared in the header `core/loadbalancer.h` which is not part of the two
source files.  The spec gives the values `BACKEND_DOWN`, `BACKEND_UP` and a
reserved `DRAINING` state; only `BACKEND_UP` is ever compared against by the
core source. -/
inductive BackendState where
  | BACKEND_DOWN
  | BACKEND_UP
  | BACKEND_DRAINING
deriving DecidableEq, Repr

/-- Modelled from the spec: `backend_t`, declared in the missing header
`core/loadbalancer.h`.  The spec lists the fields `host[≤256]` (a 256-byte
NUL-terminated buffer, so at most 255 payload bytes), `port`, atomic `weight`,
atomic `state`, atomic `active_conns` and `sockfd`.  The host buffer is
modelled as the list of its payload characters; the per-backend spin lock has
no observable sequential content and is omitted. -/
structure Backend where
  host : List Char
  port : Nat
  weight : Nat
  state : BackendState
  active_conns : Nat
  sockfd : Int
deriving DecidableEq, Repr

/-- Modelled from the spec: `lb_algorithm_t`, declared in the missing header
`core/loadbalancer.h`.  The spec requires "a tag with at least `ROUNDROBIN`
and `LEASTCONN`"; `LB_ALGO_OTHER` stands for any further tag, which the
factory's `default:` branch treats uniformly. -/
inductive LbAlgorithm where
  | LB_ALGO_ROUNDROBIN
  | LB_ALGO_LEASTCONN
  | LB_ALGO_OTHER
deriving DecidableEq, Repr

/-- The sequentially observable state of `struct lb_core`: the fixed-capacity
backend array (a total map from slot index to an optional backend pointer,
`none` standing for `NULL`), the registry count, the 32-bit round-robin
cursor `rr_idx` and the algorithm tag.  Fields of the core that no claim
observes (config values, epoll fd, memory pool, thread pool) are omitted. -/
structure Core where
  port : Nat
  backend_count : Nat
  backends : Nat → Option Backend
  rr_idx : Nat
  algorithm : LbAlgorithm

/-- The backend record built by `lb_core_add_backend` after validation:
`calloc` zero-fills, `strncpy(b->host, host, sizeof(b->host)-1)` copies at
most 255 characters, `b->port = port`, weight 0 is normalized to 1, the state
starts `BACKEND_DOWN` and `sockfd` starts `-1`. -/
def mkBackend (host : List Char) (port weight : Nat) : Backend :=
  { host := host.take 255
    port := port
    weight := if weight = 0 then 1 else weight
    state := BackendState.BACKEND_DOWN
    active_conns := 0
    sockfd := -1 }

/-- `lb_core_add_backend` from `lb_core_advanced.c`.  The `host` pointer is
`Option` (`none` = `NULL`); `allocOk` models whether `calloc` succeeds.  The
source checks, in order: `!lb || !host || !port` (the null-core case is not
modelled: the embedding acts on a core), `backend_count >= MAX_BACKENDS`,
allocation failure; then it constructs the backend and writes it at index
`backend_count`, incrementing the count. -/
def lb_core_add_backend (lb : Core) (host : Option (List Char)) (port weight : Nat)
    (allocOk : Bool) : LbStatus × Core :=
  if host = none ∨ port = 0 then (LbStatus.LB_ERR_INVAL, lb)
  else if MAX_BACKENDS ≤ lb.backend_count then (LbStatus.LB_ERR_LIMIT, lb)
  else if allocOk = false then (LbStatus.LB_ERR_NOMEM, lb)
  else
    let b := mkBackend (host.getD []) port weight
    (LbStatus.LB_OK,
      { lb with
        backend_count := lb.backend_count + 1
        backends := fun i => if i = lb.backend_count then some b else lb.backends i })

/-- A fresh, empty core as produced by `lb_core_create` (calloc zero-fills:
count 0, all slots `NULL`, cursor 0). -/
def freshCore (port : Nat) (algo : LbAlgorithm) : Core :=
  { port := port
    backend_count := 0
    backends := fun _ => none
    rr_idx := 0
    algorithm := algo }

/-- One iteration of the `strat_leastconn_select` scan: the accumulator is
the pair `(sel, minc)`; a slot is skipped when `NULL` (`if (!b) continue`) or
not `BACKEND_UP`, and the selection is replaced exactly when
`active_conns < minc` (strict, so an earlier equal count is kept). -/
def leastconnStep (bs : Nat → Option Backend) (acc : Option Backend × Nat) (i : Nat) :
    Option Backend × Nat :=
  match bs i with
  | none => acc
  | some b =>
    if b.state = BackendState.BACKEND_UP then
      if b.active_conns < acc.2 then (some b, b.active_conns) else acc
    else acc

/-- `strat_leastconn_select` from `lb_core_advanced.c`: scan
`backends[0..backend_count)` with `sel = NULL` and `minc = UINT32_MAX`. -/
def strat_leastconn_select (lb : Core) : Option Backend :=
  ((List.range lb.backend_count).foldl (leastconnStep lb.backends) (none, UINT32_MAX)).1

/-- The inner loop of `strat_rr_select`: `tries` countdown, cursor `c`
(a `uint32_t` value, hence `% U32_MOD` on increment).  Each attempt performs
`idx = atomic_fetch_add(&rr_idx, 1) % backend_count` and returns
`backends[idx]` when it is non-`NULL` and `BACKEND_UP`.  The final cursor is
returned alongside the selection. -/
def rrLoop (lb : Core) : Nat → Nat → Option Backend × Nat
  | c, 0 => (none, c)
  | c, tries + 1 =>
    let idx := c % lb.backend_count
    let c' := (c + 1) % U32_MOD
    match lb.backends idx with
    | some b =>
      if b.state = BackendState.BACKEND_UP then (some b, c') else rrLoop lb c' tries
    | none => rrLoop lb c' tries

/-- `strat_rr_select` from `lb_core_advanced.c`: `NULL` when
`backend_count == 0`, otherwise at most `backend_count` attempts of the
fetch-and-increment loop.  The second component is the value of `rr_idx`
after the call (the C code mutates it through `atomic_fetch_add`). -/
def strat_rr_select (lb : Core) : Option Backend × Nat :=
  if lb.backend_count = 0 then (none, lb.rr_idx)
  else rrLoop lb lb.rr_idx lb.backend_count

/-- `strat_leastconn_init` from `lb_core_advanced.c`: always `LB_OK`.  Both
strategy tables point their `init` member at this function. -/
def strat_leastconn_init (_ : Core) : LbStatus := LbStatus.LB_OK

/-- `lb_strategy_t`: display name plus the `init` and `select` callbacks.
`select` also yields the post-call `rr_idx` (unchanged for least-connections).
`teardown` is a no-op for both concrete strategies and carries no sequential
content, so it is omitted. -/
structure Strategy where
  name : String
  init : Core → LbStatus
  select : Core → Option Backend × Nat

/-- `STRAT_LEASTCONN` from `lb_core_advanced.c`. -/
def STRAT_LEASTCONN : Strategy :=
  { name := "leastconn"
    init := strat_leastconn_init
    select := fun lb => (strat_leastconn_select lb, lb.rr_idx) }

/-- `STRAT_RR` from `lb_core_advanced.c`; note its `init` member is
`strat_leastconn_init`, shared with the least-connections table. -/
def STRAT_RR : Strategy :=
  { name := "roundrobin"
    init := strat_leastconn_init
    select := strat_rr_select }

/-- `lb_strategy_from_algo` from `lb_core_advanced.c`: the `default:` branch
falls back to `STRAT_LEASTCONN`. -/
def lb_strategy_from_algo : LbAlgorithm → Strategy
  | LbAlgorithm.LB_ALGO_LEASTCONN => STRAT_LEASTCONN
  | LbAlgorithm.LB_ALGO_ROUNDROBIN => STRAT_RR
  | LbAlgorithm.LB_ALGO_OTHER => STRAT_LEASTCONN

/-- Success flags for the fallible system calls made by `lb_core_create`:
`calloc`, `epoll_create1`, `mmap` (non-fatal) and the thread-pool `calloc`
(non-fatal). -/
structure CreateEnv where
  callocOk : Bool
  epollOk : Bool
  mmapOk : Bool
  tpStartOk : Bool
deriving DecidableEq, Repr

/-- Outcome of `lb_core_create`: the returned status, the core stored through
`*out` (on `LB_OK` only), and whether the strategy-init failure branch (the
one that closes `epfd`, destroys the registry lock and frees the core) was
executed. -/
structure CreateResult where
  status : LbStatus
  core : Option Core
  initFailBranch : Bool

/-- `lb_core_create` from `lb_core_advanced.c`, sequentially observable part:
null `out` check, `calloc`, `epoll_create1` (`LB_ERR_SYS` on failure), defaults
and the (unobserved) `mmap`, strategy binding via the factory, `strategy.init`
(its failure branch tears everything down and propagates the status), and the
non-fatal thread-pool start.  Config defaults and the epoll descriptor carry
no claim-relevant state and are not recorded in `Core`. -/
def lb_core_create (port : Nat) (algo : LbAlgorithm) (outNonNull : Bool)
    (env : CreateEnv) : CreateResult :=
  if outNonNull = false then
    { status := LbStatus.LB_ERR_INVAL, core := none, initFailBranch := false }
  else if env.callocOk = false then
    { status := LbStatus.LB_ERR_NOMEM, core := none, initFailBranch := false }
  else if env.epollOk = false then
    { status := LbStatus.LB_ERR_SYS, core := none, initFailBranch := false }
  else
    let lb := freshCore port algo
    let strat := lb_strategy_from_algo algo
    let s := strat.init lb
    if s ≠ LbStatus.LB_OK then
      { status := s, core := none, initFailBranch := true }
    else
      { status := LbStatus.LB_OK, core := some lb, initFailBranch := false }

/-- The stored weight of the backend in slot `i`, when the slot is filled. -/
def weightAt (lb : Core) (i : Nat) : Option Nat := (lb.backends i).map Backend.weight

/-- The stored host of the backend in slot `i`, when the slot is filled. -/
def hostAt (lb : Core) (i : Nat) : Option (List Char) := (lb.backends i).map Backend.host

/-- Claim C3, amended: `lb_core_add_backend` returns `LB_ERR_INVAL` and leaves
the registry (indeed the whole core) unchanged whenever the host argument is
`NULL` or the port argument is 0; the result does not depend on whether the
allocation would have succeeded, since validation precedes `calloc`.  An empty
host string is not rejected (see the counterexample). -/
theorem lb_core_add_backend_invalid_args (lb : Core) (host : Option (List Char))
    (port weight : Nat) (allocOk : Bool) (h : host = none ∨ port = 0) :
    lb_core_add_backend lb host port weight allocOk = (LbStatus.LB_ERR_INVAL, lb) := by
  unfold lb_core_add_backend
  rw [if_pos h]

/-- Witness for `lb_core_add_backend_invalid_args` at a concrete input. -/
theorem lb_core_add_backend_invalid_args_witness :
    lb_core_add_backend (freshCore 8080 LbAlgorithm.LB_ALGO_ROUNDROBIN) none 80 1 true
      = (LbStatus.LB_ERR_INVAL, freshCore 8080 LbAlgorithm.LB_ALGO_ROUNDROBIN) :=
  lb_core_add_backend_invalid_args _ _ _ _ _ (Or.inl rfl)

/-- Counterexample to claim C3 as stated: with an empty (non-`NULL`) host the
source's `!host` test passes, so the call succeeds (`LB_OK`) and the registry
grows, instead of returning `INVALID_ARGUMENT` with the registry unchanged. -/
theorem lb_core_add_backend_empty_host_cex :
    (lb_core_add_backend (freshCore 8080 LbAlgorithm.LB_ALGO_ROUNDROBIN)
        (some []) 80 1 true).1 = LbStatus.LB_OK ∧
    (lb_core_add_backend (freshCore 8080 LbAlgorithm.LB_ALGO_ROUNDROBIN)
        (some []) 80 1 true).2.backend_count = 1 :=
  ⟨rfl, rfl⟩

/-- Claim C5: with the registry at capacity (`backend_count = MAX_BACKENDS`),
a validly-argumented `lb_core_add_backend` call returns `LB_ERR_LIMIT` and
leaves the core unchanged, regardless of whether allocation would succeed
(the capacity test precedes `calloc`, so no backend is constructed).
Argument validation precedes the capacity test, whence the host/port
hypotheses. -/
theorem lb_core_add_backend_limit (lb : Core) (host : Option (List Char))
    (port weight : Nat) (allocOk : Bool) (hh : host ≠ none) (hp : port ≠ 0)
    (hfull : lb.backend_count = MAX_BACKENDS) :
    lb_core_add_backend lb host port weight allocOk = (LbStatus.LB_ERR_LIMIT, lb) := by
  have h1 : ¬(host = none ∨ port = 0) := by
    rintro (h | h)
    · exact hh h
    · exact hp h
  have h2 : MAX_BACKENDS ≤ lb.backend_count := hfull.symm.le
  unfold lb_core_add_backend
  rw [if_neg h1, if_pos h2]

/-- A core whose registry is at capacity, for the C5 witness. -/
def fullCore : Core :=
  { port := 8080
    backend_count := 256
    backends := fun i => if i < 256 then some (mkBackend ['h'] 80 1) else none
    rr_idx := 0
    algorithm := LbAlgorithm.LB_ALGO_ROUNDROBIN }

/-- Witness for `lb_core_add_backend_limit` at a concrete input. -/
theorem lb_core_add_backend_limit_witness :
    lb_core_add_backend fullCore (some ['a']) 80 1 true = (LbStatus.LB_ERR_LIMIT, fullCore) :=
  lb_core_add_backend_limit _ _ _ _ _ (by decide) (by decide) rfl

/-- Claim C8: a backend stored by a successful `lb_core_add_backend` call has
weight `if weight = 0 then 1 else weight`: at least 1 always, an input weight
of 0 normalized to 1, and any nonzero input weight stored unchanged. -/
theorem lb_core_add_backend_weight_spec (lb : Core) (host : Option (List Char))
    (port weight : Nat) (allocOk : Bool)
    (h : (lb_core_add_backend lb host port weight allocOk).1 = LbStatus.LB_OK) :
    weightAt (lb_core_add_backend lb host port weight allocOk).2 lb.backend_count
      = some (if weight = 0 then 1 else weight) ∧
    1 ≤ (if weight = 0 then 1 else weight) ∧
    (weight ≠ 0 → weightAt (lb_core_add_backend lb host port weight allocOk).2 lb.backend_count
      = some weight) := by
  by_cases h1 : host = none ∨ port = 0
  · rw [lb_core_add_backend, if_pos h1] at h
    simp at h
  · by_cases h2 : MAX_BACKENDS ≤ lb.backend_count
    · rw [lb_core_add_backend, if_neg h1, if_pos h2] at h
      simp at h
    · by_cases h3 : allocOk = false
      · rw [lb_core_add_backend, if_neg h1, if_neg h2, if_pos h3] at h
        simp at h
      · have hres : lb_core_add_backend lb host port weight allocOk =
            (LbStatus.LB_OK,
              { lb with
                backend_count := lb.backend_count + 1
                backends := fun i =>
                  if i = lb.backend_count then some (mkBackend (host.getD []) port weight)
                  else lb.backends i }) := by
          rw [lb_core_add_backend, if_neg h1, if_neg h2, if_neg h3]
        refine ⟨?_, ?_, ?_⟩
        · rw [hres]
          simp [weightAt, mkBackend]
        · split
          · exact le_refl 1
          · exact Nat.one_le_iff_ne_zero.mpr (by assumption)
        · intro hw
          rw [hres]
          simp [weightAt, mkBackend, hw]

/-- Witness for `lb_core_add_backend_weight_spec`: weight 0 is normalized to 1
and weight 7 is stored unchanged. -/
theorem lb_core_add_backend_weight_witness :
    weightAt (lb_core_add_backend (freshCore 1 LbAlgorithm.LB_ALGO_LEASTCONN)
        (some ['h']) 80 0 true).2 0 = some 1 ∧
    weightAt (lb_core_add_backend (freshCore 1 LbAlgorithm.LB_ALGO_LEASTCONN)
        (some ['h']) 80 7 true).2 0 = some 7 := by
  constructor
  · exact (lb_core_add_backend_weight_spec
      (freshCore 1 LbAlgorithm.LB_ALGO_LEASTCONN) (some ['h']) 80 0 true rfl).1
  · exact (lb_core_add_backend_weight_spec
      (freshCore 1 LbAlgorithm.LB_ALGO_LEASTCONN) (some ['h']) 80 7 true rfl).2.2 (by decide)

/-- Claim C9, amended: for a non-`NULL` host and a nonzero port, with room in
the registry and a successful allocation, `lb_core_add_backend` returns
`LB_OK` and stores the first at-most-255 characters of the host (silent
truncation by `strncpy(b->host, host, sizeof(b->host)-1)` into the zero-filled
256-byte buffer); a host of at most 255 characters is stored unchanged. -/
theorem lb_core_add_backend_host_truncation (lb : Core) (s : List Char)
    (port weight : Nat) (hp : port ≠ 0) (hroom : lb.backend_count < MAX_BACKENDS) :
    (lb_core_add_backend lb (some s) port weight true).1 = LbStatus.LB_OK ∧
    hostAt (lb_core_add_backend lb (some s) port weight true).2 lb.backend_count
      = some (s.take 255) ∧
    (s.take 255).length ≤ 255 ∧
    (s.length ≤ 255 →
      hostAt (lb_core_add_backend lb (some s) port weight true).2 lb.backend_count
        = some s) := by
  have h1 : ¬(some s = none ∨ port = 0) := by
    rintro (h | h)
    · exact Option.noConfusion h
    · exact hp h
  have h2 : ¬(MAX_BACKENDS ≤ lb.backend_count) := Nat.not_le.mpr hroom
  have h3 : ¬((true : Bool) = false) := by decide
  have hres : lb_core_add_backend lb (some s) port weight true =
      (LbStatus.LB_OK,
        { lb with
          backend_count := lb.backend_count + 1
          backends := fun i =>
            if i = lb.backend_count then some (mkBackend s port weight)
            else lb.backends i }) := by
    rw [lb_core_add_backend, if_neg h1, if_neg h2, if_neg h3]
    rfl
  refine ⟨?_, ?_, ?_, ?_⟩
  · rw [hres]
  · rw [hres]
    simp [hostAt, mkBackend]
  · rw [List.length_take]
    exact min_le_left _ _
  · intro hlen
    rw [hres]
    simp [hostAt, mkBackend, List.take_of_length_le hlen]

/-- Witness for `lb_core_add_backend_host_truncation` at a concrete input. -/
theorem lb_core_add_backend_host_truncation_witness :
    hostAt (lb_core_add_backend (freshCore 1 LbAlgorithm.LB_ALGO_LEASTCONN)
        (some ['a', 'b']) 80 1 true).2 0 = some ['a', 'b'] := by
  have h := lb_core_add_backend_host_truncation (freshCore 1 LbAlgorithm.LB_ALGO_LEASTCONN)
    ['a', 'b'] 80 1 (by decide) (by decide)
  exact h.2.2.2 (by decide)

/-- Counterexample to claim C9 as stated: port 0 is rejected before the host
is inspected, so a call with a non-`NULL` host, a successful allocation and a
non-full registry still does not return `LB_OK`. -/
theorem lb_core_add_backend_port_zero_cex :
    (freshCore 8080 LbAlgorithm.LB_ALGO_LEASTCONN).backend_count < MAX_BACKENDS ∧
    (lb_core_add_backend (freshCore 8080 LbAlgorithm.LB_ALGO_LEASTCONN)
        (some ['a']) 0 1 true).1 = LbStatus.LB_ERR_INVAL := by
  exact ⟨by decide, rfl⟩

/-- Whether slot `i` holds a non-`NULL` backend whose state is `BACKEND_UP` —
the condition under which a round-robin probe accepts the slot. -/
def isUpAt (lb : Core) (i : Nat) : Bool :=
  match lb.backends i with
  | some b => decide (b.state = BackendState.BACKEND_UP)
  | none => false

/-- The slot probed by the round-robin loop's attempt number `t` when the
cursor held `c` before the call: the `uint32_t` cursor value `(c + t) mod 2^32`
reduced `mod backend_count`. -/
def probeIdx (lb : Core) (c t : Nat) : Nat :=
  ((c + t) % U32_MOD) % lb.backend_count

theorem probeIdx_shift (lb : Core) (c t : Nat) :
    probeIdx lb ((c + 1) % U32_MOD) t = probeIdx lb c (t + 1) := by
  unfold probeIdx
  rw [Nat.mod_add_mod]
  ring_nf

theorem rrLoop_all_fail (lb : Core) :
    ∀ n c, c < U32_MOD → (∀ t, t < n → isUpAt lb (probeIdx lb c t) = false) →
      rrLoop lb c n = (none, (c + n) % U32_MOD) := by
  intro n
  induction n with
  | zero =>
    intro c hc _
    simp [rrLoop, Nat.mod_eq_of_lt hc]
  | succ m ih =>
    intro c hc hfail
    have h0 : isUpAt lb (c % lb.backend_count) = false := by
      have := hfail 0 (Nat.succ_pos m)
      simpa [probeIdx, Nat.mod_eq_of_lt hc] using this
    have hrec : rrLoop lb ((c + 1) % U32_MOD) m = (none, ((c + 1) % U32_MOD + m) % U32_MOD) := by
      apply ih
      · exact Nat.mod_lt _ (by norm_num [U32_MOD])
      · intro t ht
        rw [probeIdx_shift]
        exact hfail (t + 1) (Nat.succ_lt_succ ht)
    have hcur : ((c + 1) % U32_MOD + m) % U32_MOD = (c + (m + 1)) % U32_MOD := by
      rw [Nat.mod_add_mod]
      ring_nf
    rw [rrLoop]
    unfold isUpAt at h0
    cases hb : lb.backends (c % lb.backend_count) with
    | none =>
      simp only [hb]
      rw [hrec, hcur]
    | some b =>
      rw [hb] at h0
      have hstate : ¬ b.state = BackendState.BACKEND_UP := by
        simpa using h0
      simp only [hb, if_neg hstate]
      rw [hrec, hcur]

theorem rrLoop_first_up (lb : Core) :
    ∀ n c t, c < U32_MOD → t < n → isUpAt lb (probeIdx lb c t) = true →
      (∀ s, s < t → isUpAt lb (probeIdx lb c s) = false) →
      rrLoop lb c n = (lb.backends (probeIdx lb c t), (c + t + 1) % U32_MOD) := by
  intro n
  induction n with
  | zero =>
    intro c t _ ht
    exact absurd ht (Nat.not_lt_zero t)
  | succ m ih =>
    intro c t hc ht hup hfail
    cases t with
    | zero =>
      have hidx : probeIdx lb c 0 = c % lb.backend_count := by
        simp [probeIdx, Nat.mod_eq_of_lt hc]
      rw [hidx] at hup
      unfold isUpAt at hup
      cases hb : lb.backends (c % lb.backend_count) with
      | none => rw [hb] at hup; exact absurd hup (by decide)
      | some b =>
        rw [hb] at hup
        have hstate : b.state = BackendState.BACKEND_UP := by simpa using hup
        rw [rrLoop]
        simp only [hb, if_pos hstate]
        rw [hidx, hb]
    | succ u =>
      have h0 : isUpAt lb (c % lb.backend_count) = false := by
        have := hfail 0 (Nat.succ_pos u)
        simpa [probeIdx, Nat.mod_eq_of_lt hc] using this
      have hc' : (c + 1) % U32_MOD < U32_MOD := Nat.mod_lt _ (by norm_num [U32_MOD])
      have hrec : rrLoop lb ((c + 1) % U32_MOD) m
          = (lb.backends (probeIdx lb ((c + 1) % U32_MOD) u),
             ((c + 1) % U32_MOD + u + 1) % U32_MOD) := by
        apply ih _ u hc' (Nat.lt_of_succ_lt_succ ht)
        · rw [probeIdx_shift]
          exact hup
        · intro s hs
          rw [probeIdx_shift]
          exact hfail (s + 1) (Nat.succ_lt_succ hs)
      have hidx : probeIdx lb ((c + 1) % U32_MOD) u = probeIdx lb c (u + 1) :=
        probeIdx_shift lb c u
      have hcur : ((c + 1) % U32_MOD + u + 1) % U32_MOD = (c + (u + 1) + 1) % U32_MOD := by
        rw [Nat.add_assoc, Nat.mod_add_mod]
        ring_nf
      rw [rrLoop]
      unfold isUpAt at h0
      cases hb : lb.backends (c % lb.backend_count) with
      | none =>
        simp only [hb]
        rw [hrec, hidx, hcur]
      | some b =>
        rw [hb] at h0
        have hstate : ¬ b.state = BackendState.BACKEND_UP := by simpa using h0
        simp only [hb, if_neg hstate]
        rw [hrec, hidx, hcur]

/-- Claim C1: `strat_rr_select` returns no candidate when the registry count
is 0; otherwise it makes at most `backend_count` attempts, attempt `t` probing
slot `((rr_idx + t) mod 2^32) mod backend_count` (each attempt consuming one
fetch-and-increment of the 32-bit cursor); it returns the first probed slot
that is non-`NULL` and `BACKEND_UP` (with the cursor advanced past that
attempt), and returns no candidate with the cursor advanced by
`backend_count` after all `backend_count` attempts failed. -/
theorem strat_rr_select_spec (lb : Core) (hc : lb.rr_idx < U32_MOD) :
    (lb.backend_count = 0 → strat_rr_select lb = (none, lb.rr_idx)) ∧
    (∀ t, t < lb.backend_count → isUpAt lb (probeIdx lb lb.rr_idx t) = true →
      (∀ s, s < t → isUpAt lb (probeIdx lb lb.rr_idx s) = false) →
      strat_rr_select lb
        = (lb.backends (probeIdx lb lb.rr_idx t), (lb.rr_idx + t + 1) % U32_MOD)) ∧
    ((∀ t, t < lb.backend_count → isUpAt lb (probeIdx lb lb.rr_idx t) = false) →
      strat_rr_select lb = (none, (lb.rr_idx + lb.backend_count) % U32_MOD)) := by
  refine ⟨?_, ?_, ?_⟩
  · intro h0
    rw [strat_rr_select, if_pos h0]
  · intro t ht hup hfail
    have hN : lb.backend_count ≠ 0 := by
      intro h0
      rw [h0] at ht
      exact absurd ht (Nat.not_lt_zero t)
    rw [strat_rr_select, if_neg hN]
    exact rrLoop_first_up lb lb.backend_count lb.rr_idx t hc ht hup hfail
  · intro hfail
    by_cases h0 : lb.backend_count = 0
    · rw [strat_rr_select, if_pos h0, h0, Nat.add_zero, Nat.mod_eq_of_lt hc]
    · rw [strat_rr_select, if_neg h0]
      exact rrLoop_all_fail lb lb.backend_count lb.rr_idx hc hfail

/-- A two-slot core (slot 0 `DOWN`, slot 1 `UP`) for the C1 witness. -/
def rrWitnessCore : Core :=
  { port := 8080
    backend_count := 2
    backends := fun i =>
      if i = 0 then some (mkBackend ['d'] 80 1)
      else if i = 1 then
        some { mkBackend ['u'] 81 1 with state := BackendState.BACKEND_UP }
      else none
    rr_idx := 0
    algorithm := LbAlgorithm.LB_ALGO_ROUNDROBIN }

/-- Witness for `strat_rr_select_spec`: on `rrWitnessCore` the first probe
(slot 0, `DOWN`) fails and the second (slot 1, `UP`) is returned, the cursor
having advanced to 2. -/
theorem strat_rr_select_spec_witness :
    strat_rr_select rrWitnessCore = (rrWitnessCore.backends 1, 2) := by
  have h := (strat_rr_select_spec rrWitnessCore (by norm_num [rrWitnessCore, U32_MOD])).2.1
    1 (by norm_num [rrWitnessCore]) (by decide) (by
      intro s hs
      interval_cases s
      decide)
  have hidx : probeIdx rrWitnessCore rrWitnessCore.rr_idx 1 = 1 := by decide
  have hcur : (rrWitnessCore.rr_idx + 1 + 1) % U32_MOD = 2 := by decide
  rw [hidx, hcur] at h
  exact h

/-- The least-connections scan after the first `n` slots have been visited. -/
def scanLC (lb : Core) (n : Nat) : Option Backend × Nat :=
  (List.range n).foldl (leastconnStep lb.backends) (none, UINT32_MAX)

theorem strat_leastconn_select_eq_scan (lb : Core) :
    strat_leastconn_select lb = (scanLC lb lb.backend_count).1 := rfl

theorem scanLC_succ (lb : Core) (n : Nat) :
    scanLC lb (n + 1) = leastconnStep lb.backends (scanLC lb n) n := by
  unfold scanLC
  rw [List.range_succ, List.foldl_append, List.foldl_cons, List.foldl_nil]

/-- Loop invariant of the least-connections scan: after `n` slots either no
`UP` slot with `active_conns < UINT32_MAX` has been seen and the accumulator
still holds the sentinel, or the accumulator holds the backend of the first
slot attaining the minimum `active_conns` among the `UP` slots visited. -/
def scanInv (lb : Core) (n : Nat) : Prop :=
  (scanLC lb n = (none, UINT32_MAX) ∧
    ∀ i b, i < n → lb.backends i = some b → b.state = BackendState.BACKEND_UP →
      UINT32_MAX ≤ b.active_conns) ∨
  (∃ j b, j < n ∧ lb.backends j = some b ∧ b.state = BackendState.BACKEND_UP ∧
    b.active_conns < UINT32_MAX ∧ scanLC lb n = (some b, b.active_conns) ∧
    (∀ i b', i < n → lb.backends i = some b' → b'.state = BackendState.BACKEND_UP →
      b.active_conns ≤ b'.active_conns) ∧
    (∀ i b', i < j → lb.backends i = some b' → b'.state = BackendState.BACKEND_UP →
      b.active_conns < b'.active_conns))

theorem scanInv_holds (lb : Core) : ∀ n, scanInv lb n := by
  intro n
  induction n with
  | zero =>
    left
    refine ⟨rfl, ?_⟩
    intro i b hi
    exact absurd hi (Nat.not_lt_zero i)
  | succ m ih =>
    cases hb : lb.backends m with
    | none =>
      have hstep : scanLC lb (m + 1) = scanLC lb m := by
        rw [scanLC_succ]
        simp [leastconnStep, hb]
      rcases ih with ⟨hacc, hall⟩ | ⟨j, b0, hj, hb0, hup0, hlt0, hacc, hmin, hfirst⟩
      · left
        refine ⟨hstep.trans hacc, ?_⟩
        intro i b hi hbi hupi
        rcases Nat.lt_succ_iff_lt_or_eq.mp hi with h | h
        · exact hall i b h hbi hupi
        · subst h
          rw [hb] at hbi
          exact Option.noConfusion hbi
      · right
        refine ⟨j, b0, Nat.lt_succ_of_lt hj, hb0, hup0, hlt0, hstep.trans hacc, ?_, hfirst⟩
        intro i b' hi hbi hupi
        rcases Nat.lt_succ_iff_lt_or_eq.mp hi with h | h
        · exact hmin i b' h hbi hupi
        · subst h
          rw [hb] at hbi
          exact Option.noConfusion hbi
    | some b =>
      by_cases hst : b.state = BackendState.BACKEND_UP
      · rcases ih with ⟨hacc, hall⟩ | ⟨j, b0, hj, hb0, hup0, hlt0, hacc, hmin, hfirst⟩
        · by_cases hlt : b.active_conns < UINT32_MAX
          · right
            have hstep : scanLC lb (m + 1) = (some b, b.active_conns) := by
              rw [scanLC_succ, hacc]
              simp [leastconnStep, hb, hst, hlt]
            refine ⟨m, b, Nat.lt_succ_self m, hb, hst, hlt, hstep, ?_, ?_⟩
            · intro i b' hi hbi hupi
              rcases Nat.lt_succ_iff_lt_or_eq.mp hi with h | h
              · exact le_of_lt (lt_of_lt_of_le hlt (hall i b' h hbi hupi))
              · subst h
                rw [hb] at hbi
                injection hbi with h
                subst h
                exact le_refl _
            · intro i b' hi hbi hupi
              exact lt_of_lt_of_le hlt (hall i b' hi hbi hupi)
          · left
            have hstep : scanLC lb (m + 1) = scanLC lb m := by
              rw [scanLC_succ, hacc]
              simp [leastconnStep, hb, hst, hlt]
            refine ⟨hstep.trans hacc, ?_⟩
            intro i b' hi hbi hupi
            rcases Nat.lt_succ_iff_lt_or_eq.mp hi with h | h
            · exact hall i b' h hbi hupi
            · subst h
              rw [hb] at hbi
              injection hbi with h
              subst h
              exact Nat.not_lt.mp hlt
        · by_cases hlt : b.active_conns < b0.active_conns
          · right
            have hstep : scanLC lb (m + 1) = (some b, b.active_conns) := by
              rw [scanLC_succ, hacc]
              simp [leastconnStep, hb, hst, hlt]
            refine ⟨m, b, Nat.lt_succ_self m, hb, hst, lt_trans hlt hlt0, hstep, ?_, ?_⟩
            · intro i b' hi hbi hupi
              rcases Nat.lt_succ_iff_lt_or_eq.mp hi with h | h
              · exact le_of_lt (lt_of_lt_of_le hlt (hmin i b' h hbi hupi))
              · subst h
                rw [hb] at hbi
                injection hbi with h
                subst h
                exact le_refl _
            · intro i b' hi hbi hupi
              exact lt_of_lt_of_le hlt (hmin i b' hi hbi hupi)
          · right
            have hstep : scanLC lb (m + 1) = scanLC lb m := by
              rw [scanLC_succ, hacc]
              simp [leastconnStep, hb, hst, hlt]
            refine ⟨j, b0, Nat.lt_succ_of_lt hj, hb0, hup0, hlt0, hstep.trans hacc, ?_, hfirst⟩
            intro i b' hi hbi hupi
            rcases Nat.lt_succ_iff_lt_or_eq.mp hi with h | h
            · exact hmin i b' h hbi hupi
            · subst h
              rw [hb] at hbi
              injection hbi with h
              subst h
              exact Nat.not_lt.mp hlt
      · have hstep : scanLC lb (m + 1) = scanLC lb m := by
          rw [scanLC_succ]
          simp [leastconnStep, hb, hst]
        rcases ih with ⟨hacc, hall⟩ | ⟨j, b0, hj, hb0, hup0, hlt0, hacc, hmin, hfirst⟩
        · left
          refine ⟨hstep.trans hacc, ?_⟩
          intro i b' hi hbi hupi
          rcases Nat.lt_succ_iff_lt_or_eq.mp hi with h | h
          · exact hall i b' h hbi hupi
          · subst h
            rw [hb] at hbi
            injection hbi with h
            subst h
            exact absurd hupi hst
        · right
          refine ⟨j, b0, Nat.lt_succ_of_lt hj, hb0, hup0, hlt0, hstep.trans hacc, ?_, hfirst⟩
          intro i b' hi hbi hupi
          rcases Nat.lt_succ_iff_lt_or_eq.mp hi with h | h
          · exact hmin i b' h hbi hupi
          · subst h
            rw [hb] at hbi
            injection hbi with h
            subst h
            exact absurd hupi hst

/-- Claim C2, amended: `strat_leastconn_select` scans `backends[0..count)`,
ignores the client address by construction, and returns the lowest-indexed
`UP` backend attaining the minimum `active_conns` — provided that minimum is
strictly below `UINT32_MAX`, the sentinel the scan starts from.  When no `UP`
backend exists, or every `UP` backend's count is at least `UINT32_MAX` (for
`uint32_t` values: exactly `UINT32_MAX`), it returns no candidate. -/
theorem strat_leastconn_select_spec (lb : Core) :
    (∀ j b, j < lb.backend_count → lb.backends j = some b →
      b.state = BackendState.BACKEND_UP → b.active_conns < UINT32_MAX →
      (∀ i b', i < lb.backend_count → lb.backends i = some b' →
        b'.state = BackendState.BACKEND_UP → b.active_conns ≤ b'.active_conns) →
      (∀ i b', i < j → lb.backends i = some b' →
        b'.state = BackendState.BACKEND_UP → b.active_conns < b'.active_conns) →
      strat_leastconn_select lb = some b) ∧
    ((∀ i b', i < lb.backend_count → lb.backends i = some b' →
        b'.state = BackendState.BACKEND_UP → UINT32_MAX ≤ b'.active_conns) →
      strat_leastconn_select lb = none) := by
  constructor
  · intro j b hj hb hup hlt hmin hfirst
    rcases scanInv_holds lb lb.backend_count with
      ⟨hacc, hall⟩ | ⟨j0, b0, hj0, hb0, hup0, hlt0, hacc, hmin0, hfirst0⟩
    · exact absurd (hall j b hj hb hup) (Nat.not_le.mpr hlt)
    · have h1 : b0.active_conns ≤ b.active_conns := hmin0 j b hj hb hup
      have h2 : b.active_conns ≤ b0.active_conns := hmin j0 b0 hj0 hb0 hup0
      have hjj : j0 = j := by
        rcases Nat.lt_trichotomy j0 j with h | h | h
        · exact absurd (hfirst j0 b0 h hb0 hup0) (by omega)
        · exact h
        · exact absurd (hfirst0 j b h hb hup) (by omega)
      subst hjj
      rw [hb] at hb0
      injection hb0 with hbb
      subst hbb
      rw [strat_leastconn_select_eq_scan, hacc]
  · intro hall
    rcases scanInv_holds lb lb.backend_count with
      ⟨hacc, _⟩ | ⟨j0, b0, hj0, hb0, hup0, hlt0, hacc, _, _⟩
    · rw [strat_leastconn_select_eq_scan, hacc]
    · exact absurd (hall j0 b0 hj0 hb0 hup0) (Nat.not_le.mpr hlt0)

/-- The slot-1 backend of `lcWitnessCore` (`UP`, 2 active connections). -/
def lcWitnessBackend : Backend :=
  { mkBackend ['y'] 80 1 with state := BackendState.BACKEND_UP, active_conns := 2 }

/-- Three `UP` backends with `active_conns` 5, 2, 7 for the C2 witness. -/
def lcWitnessCore : Core :=
  { port := 8080
    backend_count := 3
    backends := fun i =>
      if i = 0 then
        some { mkBackend ['x'] 80 1 with state := BackendState.BACKEND_UP, active_conns := 5 }
      else if i = 1 then some lcWitnessBackend
      else if i = 2 then
        some { mkBackend ['z'] 80 1 with state := BackendState.BACKEND_UP, active_conns := 7 }
      else none
    rr_idx := 0
    algorithm := LbAlgorithm.LB_ALGO_LEASTCONN }

/-- Witness for `strat_leastconn_select_spec`: with counts 5, 2, 7 the scan
returns the backend in slot 1. -/
theorem strat_leastconn_select_spec_witness :
    strat_leastconn_select lcWitnessCore = some lcWitnessBackend := by
  refine (strat_leastconn_select_spec lcWitnessCore).1 1 lcWitnessBackend
    (by decide) (by decide) (by decide) (by decide) ?_ ?_
  · intro i b' hi hbi hupi
    have hi' : i < 3 := hi
    interval_cases i <;>
      (simp only [lcWitnessCore] at hbi) <;> injection hbi with h <;> subst h <;> decide
  · intro i b' hi hbi hupi
    have hi' : i < 1 := hi
    interval_cases i
    simp only [lcWitnessCore] at hbi
    injection hbi with h
    subst h
    decide

/-- An `UP` backend with `active_conns = UINT32_MAX`, the C2 counterexample. -/
def lcSentinelBackend : Backend :=
  { mkBackend ['m'] 80 1 with state := BackendState.BACKEND_UP, active_conns := UINT32_MAX }

/-- A core holding only `lcSentinelBackend`. -/
def lcSentinelCore : Core :=
  { port := 8080
    backend_count := 1
    backends := fun i => if i = 0 then some lcSentinelBackend else none
    rr_idx := 0
    algorithm := LbAlgorithm.LB_ALGO_LEASTCONN }

/-- Counterexample to claim C2 as stated: this core has exactly one backend;
it is `UP`, so the minimum `active_conns` over `UP` backends is attained at
it, and the claim demands that it be returned; but the scan starts from
`minc = UINT32_MAX` and its strict `<` never fires on a backend whose count
is `UINT32_MAX`, so the call returns no candidate. -/
theorem strat_leastconn_sentinel_cex :
    lcSentinelCore.backend_count = 1 ∧
    lcSentinelCore.backends 0 = some lcSentinelBackend ∧
    lcSentinelBackend.state = BackendState.BACKEND_UP ∧
    strat_leastconn_select lcSentinelCore = none := by
  refine ⟨rfl, rfl, rfl, ?_⟩
  decide

/-- The core with its round-robin cursor replaced — the sequential effect of
the `atomic_fetch_add` on `rr_idx` between successive selections. -/
def setCursor (lb : Core) (c : Nat) : Core := { lb with rr_idx := c }

/-- `n` successive round-robin selections on one core: the selections in call
order together with the core after them (only the cursor evolves). -/
def rrSelectSeq (lb : Core) : Nat → List (Option Backend) × Core
  | 0 => ([], lb)
  | n + 1 =>
    let p := rrSelectSeq lb n
    let s := strat_rr_select p.2
    (p.1 ++ [s.1], setCursor p.2 s.2)

/-- With every slot `UP`, the first probe of `strat_rr_select` succeeds: the
call returns `backends[rr_idx mod backend_count]` and advances the cursor by
exactly one. -/
theorem strat_rr_select_all_up (lb : Core) (hpos : 0 < lb.backend_count)
    (hup : ∀ i, i < lb.backend_count → isUpAt lb i = true)
    (hc : lb.rr_idx < U32_MOD) :
    strat_rr_select lb
      = (lb.backends (lb.rr_idx % lb.backend_count), (lb.rr_idx + 1) % U32_MOD) := by
  have hidx : probeIdx lb lb.rr_idx 0 = lb.rr_idx % lb.backend_count := by
    simp [probeIdx, Nat.mod_eq_of_lt hc]
  have h := rrLoop_first_up lb lb.backend_count lb.rr_idx 0 hc hpos
    (by rw [hidx]; exact hup _ (Nat.mod_lt _ hpos))
    (fun s hs => absurd hs (Nat.not_lt_zero s))
  rw [strat_rr_select, if_neg (Nat.pos_iff_ne_zero.mp hpos), h, hidx]

/-- With every slot `UP` and the cursor starting at 0, the state after `n`
selections has cursor `n mod 2^32` and the selections so far are
`backends[(i mod 2^32) mod backend_count]` for `i = 0, ..., n-1`. -/
theorem rrSelectSeq_all_up (lb : Core) (hpos : 0 < lb.backend_count)
    (hup : ∀ i, i < lb.backend_count → isUpAt lb i = true) (h0 : lb.rr_idx = 0) :
    ∀ n, (rrSelectSeq lb n).2 = setCursor lb (n % U32_MOD) ∧
      (rrSelectSeq lb n).1
        = (List.range n).map (fun i => lb.backends ((i % U32_MOD) % lb.backend_count)) := by
  intro n
  induction n with
  | zero =>
    refine ⟨?_, rfl⟩
    show lb = setCursor lb (0 % U32_MOD)
    rw [Nat.zero_mod, ← h0]
    rfl
  | succ m ih =>
    obtain ⟨ihs, ihl⟩ := ih
    have hsel : strat_rr_select (rrSelectSeq lb m).2
        = (lb.backends ((m % U32_MOD) % lb.backend_count), (m + 1) % U32_MOD) := by
      rw [ihs]
      have h := strat_rr_select_all_up (setCursor lb (m % U32_MOD)) hpos hup
        (Nat.mod_lt _ (by norm_num [U32_MOD]))
      rw [h]
      show (lb.backends ((m % U32_MOD) % lb.backend_count), (m % U32_MOD + 1) % U32_MOD) = _
      rw [Nat.mod_add_mod]
    have hstep : rrSelectSeq lb (m + 1)
        = ((rrSelectSeq lb m).1 ++ [(strat_rr_select (rrSelectSeq lb m).2).1],
           setCursor (rrSelectSeq lb m).2 (strat_rr_select (rrSelectSeq lb m).2).2) := rfl
    refine ⟨?_, ?_⟩
    · rw [hstep, hsel, ihs]
      rfl
    · rw [hstep, hsel, ihl, List.range_succ, List.map_append]
      rfl

theorem count_range_eq (j : Nat) : ∀ N, (List.range N).count j = if j < N then 1 else 0 := by
  intro N
  induction N with
  | zero => simp
  | succ M ih =>
    rw [List.range_succ, List.count_append, ih, List.count_singleton']
    split_ifs <;> omega

/-- Among `i = 0, ..., k*N - 1` exactly `k` values satisfy `i mod N = j`,
for each `j < N`. -/
theorem count_mod_range (N j : Nat) (hj : j < N) :
    ∀ k, ((List.range (k * N)).map (fun i => i % N)).count j = k := by
  intro k
  induction k with
  | zero => simp
  | succ t ih =>
    have hsplit : (t + 1) * N = t * N + N := by ring
    rw [hsplit, List.range_add, List.map_append, List.count_append, ih, List.map_map]
    have hcongr : (List.range N).map ((fun i => i % N) ∘ (fun x => t * N + x))
        = (List.range N).map id := by
      apply List.map_congr_left
      intro x hx
      show (t * N + x) % N = x
      rw [Nat.add_comm, Nat.add_mul_mod_self_right,
        Nat.mod_eq_of_lt (List.mem_range.mp hx)]
    rw [hcongr, List.map_id, count_range_eq, if_pos hj]

/-- Claim C4, amended: starting from a fresh core (cursor 0) whose `N > 0`
backends are all `UP` and held constant, as long as the number of selections
stays within one period of the 32-bit cursor (`m ≤ 2^32`), the `i`-th
selection returns `backends[i mod N]` — the slots are visited in strict
incrementing order modulo `N` — and over `k·N` selections with
`k·N ≤ 2^32` each slot is selected exactly `k` times.  Beyond `2^32`
selections the cursor wraps and the pattern restarts from slot 0
mid-cycle (see the counterexample), which is the only amendment. -/
theorem rr_fairness (lb : Core) (N k : Nat) (hN : lb.backend_count = N) (hpos : 0 < N)
    (h0 : lb.rr_idx = 0) (hup : ∀ i, i < N → isUpAt lb i = true) :
    (∀ m, m ≤ U32_MOD →
      (rrSelectSeq lb m).1 = (List.range m).map (fun i => lb.backends (i % N))) ∧
    (k * N ≤ U32_MOD → ∀ j, j < N →
      ((List.range (k * N)).map (fun i => i % N)).count j = k) := by
  subst hN
  constructor
  · intro m hm
    have h := (rrSelectSeq_all_up lb hpos hup h0 m).2
    rw [h]
    apply List.map_congr_left
    intro i hi
    have hiU : i < U32_MOD := lt_of_lt_of_le (List.mem_range.mp hi) hm
    rw [Nat.mod_eq_of_lt hiU]
  · intro _ j hj
    exact count_mod_range lb.backend_count j hj k

/-- The selection at position `i` of an all-`UP` run from a fresh cursor:
`backends[(i mod 2^32) mod backend_count]`. -/
theorem rrSelectSeq_elem (lb : Core) (hpos : 0 < lb.backend_count)
    (hup : ∀ i, i < lb.backend_count → isUpAt lb i = true) (h0 : lb.rr_idx = 0)
    (i m : Nat) (him : i < m) :
    ((rrSelectSeq lb m).1)[i]? = some (lb.backends ((i % U32_MOD) % lb.backend_count)) := by
  rw [(rrSelectSeq_all_up lb hpos hup h0 m).2, List.getElem?_map, List.getElem?_range him]
  rfl

/-- Distinct `UP` backends for the round-robin cores used below. -/
def rrUpB0 : Backend := { mkBackend ['a'] 80 1 with state := BackendState.BACKEND_UP }

/-- Second distinct `UP` backend. -/
def rrUpB1 : Backend := { mkBackend ['b'] 80 1 with state := BackendState.BACKEND_UP }

/-- Third distinct `UP` backend. -/
def rrUpB2 : Backend := { mkBackend ['c'] 80 1 with state := BackendState.BACKEND_UP }

/-- A fresh core with three distinct `UP` backends and cursor 0. -/
def rrThreeCore : Core :=
  { port := 8080
    backend_count := 3
    backends := fun i =>
      if i = 0 then some rrUpB0
      else if i = 1 then some rrUpB1
      else if i = 2 then some rrUpB2
      else none
    rr_idx := 0
    algorithm := LbAlgorithm.LB_ALGO_ROUNDROBIN }

/-- Witness for `rr_fairness`: on three `UP` backends, five successive
selections return slots [0, 1, 2, 0, 1], and over `2·3` selections slot 0 is
selected exactly twice. -/
theorem rr_fairness_witness :
    (rrSelectSeq rrThreeCore 5).1
      = [some rrUpB0, some rrUpB1, some rrUpB2, some rrUpB0, some rrUpB1] ∧
    ((List.range (2 * 3)).map (fun i => i % 3)).count 0 = 2 := by
  have h := rr_fairness rrThreeCore 3 2 rfl (by decide) rfl (by decide)
  constructor
  · have h1 := h.1 5 (by norm_num [U32_MOD])
    rw [h1]
    rfl
  · exact h.2 (by norm_num [U32_MOD]) 0 (by decide)

/-- Counterexample to claim C4 as stated: `2^32 + 2` is a multiple `k·N` of
`N = 3` (`k = 1431655766`), all three backends of `rrThreeCore` are `UP` and
held constant, yet the selections at positions `2^32 - 1` and `2^32` of the
run both return slot 0 — the 32-bit cursor wraps, so the indices are not
visited in strict incrementing order modulo 3, and the slot counts over the
`k·N` selections cannot all equal `k`. -/
theorem rr_wraparound_cex :
    U32_MOD + 2 = 1431655766 * 3 ∧
    ((rrSelectSeq rrThreeCore (U32_MOD + 2)).1)[U32_MOD - 1]? = some (some rrUpB0) ∧
    ((rrSelectSeq rrThreeCore (U32_MOD + 2)).1)[U32_MOD]? = some (some rrUpB0) ∧
    rrUpB0 ≠ rrUpB1 := by
  refine ⟨by norm_num [U32_MOD], ?_, ?_, by decide⟩
  · rw [rrSelectSeq_elem rrThreeCore (by decide) (by decide) rfl
      (U32_MOD - 1) (U32_MOD + 2) (by norm_num [U32_MOD])]
    have hmod : ((U32_MOD - 1) % U32_MOD) % rrThreeCore.backend_count = 0 := by decide
    rw [hmod]
    rfl
  · rw [rrSelectSeq_elem rrThreeCore (by decide) (by decide) rfl
      U32_MOD (U32_MOD + 2) (by norm_num [U32_MOD])]
    have hmod : (U32_MOD % U32_MOD) % rrThreeCore.backend_count = 0 := by decide
    rw [hmod]
    rfl

/-- Claim C6: the strategy factory maps `ROUNDROBIN` to the round-robin
table, `LEASTCONN` to the least-connections table, and any other tag to the
least-connections table, whose display name is `"leastconn"`; creating a core
with an unknown tag succeeds (whenever the fallible calls that precede
strategy binding succeed, and independently of the non-fatal `mmap` and
thread-pool outcomes), and the strategy bound for an unknown tag selects
exactly as least-connections does. -/
theorem lb_strategy_from_algo_spec :
    lb_strategy_from_algo LbAlgorithm.LB_ALGO_ROUNDROBIN = STRAT_RR ∧
    lb_strategy_from_algo LbAlgorithm.LB_ALGO_LEASTCONN = STRAT_LEASTCONN ∧
    lb_strategy_from_algo LbAlgorithm.LB_ALGO_OTHER = STRAT_LEASTCONN ∧
    (lb_strategy_from_algo LbAlgorithm.LB_ALGO_OTHER).name = "leastconn" ∧
    (∀ port mm tp,
      (lb_core_create port LbAlgorithm.LB_ALGO_OTHER true
        { callocOk := true, epollOk := true, mmapOk := mm, tpStartOk := tp }).status
      = LbStatus.LB_OK) ∧
    (∀ lb, (lb_strategy_from_algo LbAlgorithm.LB_ALGO_OTHER).select lb
      = (strat_leastconn_select lb, lb.rr_idx)) := by
  exact ⟨rfl, rfl, rfl, rfl, fun port mm tp => rfl, fun lb => rfl⟩

/-- Claim C10: both concrete strategy tables share `strat_leastconn_init` as
their `init` callback and it returns `LB_OK` unconditionally, so strategy
initialization never fails; consequently the strategy-init failure branch of
`lb_core_create` (closing the epoll descriptor, destroying the registry lock
and freeing the core) is unreachable, and the status returned by
`lb_core_create` is always one of `LB_OK`, `LB_ERR_INVAL` (null output
pointer), `LB_ERR_NOMEM` or `LB_ERR_SYS`. -/
theorem lb_core_create_status_spec :
    STRAT_RR.init = strat_leastconn_init ∧
    STRAT_LEASTCONN.init = strat_leastconn_init ∧
    (∀ lb, strat_leastconn_init lb = LbStatus.LB_OK) ∧
    (∀ port algo outNonNull env,
      (lb_core_create port algo outNonNull env).initFailBranch = false) ∧
    (∀ port algo outNonNull env,
      (lb_core_create port algo outNonNull env).status = LbStatus.LB_OK ∨
      (lb_core_create port algo outNonNull env).status = LbStatus.LB_ERR_INVAL ∨
      (lb_core_create port algo outNonNull env).status = LbStatus.LB_ERR_NOMEM ∨
      (lb_core_create port algo outNonNull env).status = LbStatus.LB_ERR_SYS) := by
  refine ⟨rfl, rfl, fun lb => rfl, ?_, ?_⟩
  · intro port algo outNonNull env
    obtain ⟨co, eo, mm, tp⟩ := env
    cases outNonNull <;> cases co <;> cases eo <;> cases algo <;> rfl
  · intro port algo outNonNull env
    obtain ⟨co, eo, mm, tp⟩ := env
    cases outNonNull <;> cases co <;> cases eo <;> cases algo <;>
      simp [lb_core_create, lb_strategy_from_algo, STRAT_RR, STRAT_LEASTCONN,
        strat_leastconn_init]

/-- One recorded `lb_core_add_backend` call: its arguments plus whether its
`calloc` succeeds. -/
structure AddCall where
  host : Option (List Char)
  port : Nat
  weight : Nat
  allocOk : Bool
deriving DecidableEq, Repr

/-- Run a sequence of `lb_core_add_backend` calls on a core, collecting the
returned statuses in call order. -/
def runAdds (lb : Core) : List AddCall → List LbStatus × Core
  | [] => ([], lb)
  | c :: cs =>
    let r := lb_core_add_backend lb c.host c.port c.weight c.allocOk
    let rest := runAdds r.2 cs
    (r.1 :: rest.1, rest.2)

/-- The backends constructed by the successful calls of a sequence, in call
order. -/
def okBackendsFrom (lb : Core) : List AddCall → List Backend
  | [] => []
  | c :: cs =>
    let r := lb_core_add_backend lb c.host c.port c.weight c.allocOk
    if r.1 = LbStatus.LB_OK then
      mkBackend (c.host.getD []) c.port c.weight :: okBackendsFrom r.2 cs
    else okBackendsFrom r.2 cs

theorem add_backend_count (lb : Core) (host : Option (List Char)) (port weight : Nat)
    (allocOk : Bool) :
    (lb_core_add_backend lb host port weight allocOk).2.backend_count
      = lb.backend_count
        + (if (lb_core_add_backend lb host port weight allocOk).1 = LbStatus.LB_OK
           then 1 else 0) := by
  unfold lb_core_add_backend
  split_ifs <;> simp_all

theorem add_backend_mono (lb : Core) (host : Option (List Char)) (port weight : Nat)
    (allocOk : Bool) :
    lb.backend_count ≤ (lb_core_add_backend lb host port weight allocOk).2.backend_count := by
  rw [add_backend_count]
  exact Nat.le_add_right _ _

theorem add_backend_fail_unchanged (lb : Core) (host : Option (List Char))
    (port weight : Nat) (allocOk : Bool)
    (h : (lb_core_add_backend lb host port weight allocOk).1 ≠ LbStatus.LB_OK) :
    (lb_core_add_backend lb host port weight allocOk).2 = lb := by
  unfold lb_core_add_backend at h ⊢
  split_ifs at h ⊢ <;> simp_all

theorem add_backend_preserves (lb : Core) (host : Option (List Char)) (port weight : Nat)
    (allocOk : Bool) (i : Nat) (hi : i < lb.backend_count) :
    (lb_core_add_backend lb host port weight allocOk).2.backends i = lb.backends i := by
  unfold lb_core_add_backend
  split_ifs <;> simp [Nat.ne_of_lt hi]

theorem add_backend_written (lb : Core) (host : Option (List Char)) (port weight : Nat)
    (allocOk : Bool)
    (h : (lb_core_add_backend lb host port weight allocOk).1 = LbStatus.LB_OK) :
    (lb_core_add_backend lb host port weight allocOk).2.backends lb.backend_count
      = some (mkBackend (host.getD []) port weight) := by
  unfold lb_core_add_backend at h ⊢
  split_ifs at h ⊢
  simp_all

theorem runAdds_count (cs : List AddCall) : ∀ lb : Core,
    (runAdds lb cs).2.backend_count
      = lb.backend_count + (runAdds lb cs).1.count LbStatus.LB_OK := by
  induction cs with
  | nil =>
    intro lb
    simp [runAdds]
  | cons c cs ih =>
    intro lb
    show (runAdds (lb_core_add_backend lb c.host c.port c.weight c.allocOk).2 cs).2.backend_count
      = lb.backend_count
        + (((lb_core_add_backend lb c.host c.port c.weight c.allocOk).1
            :: (runAdds (lb_core_add_backend lb c.host c.port c.weight c.allocOk).2 cs).1).count
           LbStatus.LB_OK)
    rw [ih, add_backend_count, List.count_cons]
    by_cases hok : (lb_core_add_backend lb c.host c.port c.weight c.allocOk).1 = LbStatus.LB_OK
    · simp [hok]
      omega
    · simp [hok]

theorem runAdds_mono (cs : List AddCall) : ∀ lb : Core,
    lb.backend_count ≤ (runAdds lb cs).2.backend_count := by
  intro lb
  rw [runAdds_count]
  exact Nat.le_add_right _ _

theorem runAdds_preserves (cs : List AddCall) : ∀ lb : Core, ∀ i, i < lb.backend_count →
    (runAdds lb cs).2.backends i = lb.backends i := by
  induction cs with
  | nil =>
    intro lb i _
    rfl
  | cons c cs ih =>
    intro lb i hi
    show (runAdds (lb_core_add_backend lb c.host c.port c.weight c.allocOk).2 cs).2.backends i
      = lb.backends i
    rw [ih _ i (lt_of_lt_of_le hi (add_backend_mono lb c.host c.port c.weight c.allocOk))]
    exact add_backend_preserves lb c.host c.port c.weight c.allocOk i hi

theorem okBackendsFrom_length (cs : List AddCall) : ∀ lb : Core,
    (okBackendsFrom lb cs).length = (runAdds lb cs).1.count LbStatus.LB_OK := by
  induction cs with
  | nil =>
    intro lb
    rfl
  | cons c cs ih =>
    intro lb
    show (if (lb_core_add_backend lb c.host c.port c.weight c.allocOk).1 = LbStatus.LB_OK then
        mkBackend (c.host.getD []) c.port c.weight
          :: okBackendsFrom (lb_core_add_backend lb c.host c.port c.weight c.allocOk).2 cs
      else okBackendsFrom (lb_core_add_backend lb c.host c.port c.weight c.allocOk).2 cs).length
      = (((lb_core_add_backend lb c.host c.port c.weight c.allocOk).1
          :: (runAdds (lb_core_add_backend lb c.host c.port c.weight c.allocOk).2 cs).1).count
         LbStatus.LB_OK)
    rw [List.count_cons]
    by_cases hok : (lb_core_add_backend lb c.host c.port c.weight c.allocOk).1 = LbStatus.LB_OK
    · simp [hok, ih]
    · simp [hok, ih]

theorem runAdds_new_entries (cs : List AddCall) : ∀ lb : Core, ∀ j,
    j < (okBackendsFrom lb cs).length →
    (runAdds lb cs).2.backends (lb.backend_count + j) = (okBackendsFrom lb cs)[j]? := by
  induction cs with
  | nil =>
    intro lb j hj
    exact absurd hj (Nat.not_lt_zero j)
  | cons c cs ih =>
    intro lb j hj
    by_cases hok : (lb_core_add_backend lb c.host c.port c.weight c.allocOk).1 = LbStatus.LB_OK
    · have hlist : okBackendsFrom lb (c :: cs)
          = mkBackend (c.host.getD []) c.port c.weight
            :: okBackendsFrom (lb_core_add_backend lb c.host c.port c.weight c.allocOk).2 cs := by
        show (if (lb_core_add_backend lb c.host c.port c.weight c.allocOk).1 = LbStatus.LB_OK
            then _ else _) = _
        rw [if_pos hok]
      have hcount : (lb_core_add_backend lb c.host c.port c.weight c.allocOk).2.backend_count
          = lb.backend_count + 1 := by
        rw [add_backend_count, if_pos hok]
      have hrun : (runAdds lb (c :: cs)).2
          = (runAdds (lb_core_add_backend lb c.host c.port c.weight c.allocOk).2 cs).2 := rfl
      rw [hrun, hlist]
      cases j with
      | zero =>
        rw [List.getElem?_cons_zero, Nat.add_zero]
        rw [runAdds_preserves cs _ lb.backend_count (by omega)]
        exact add_backend_written lb c.host c.port c.weight c.allocOk hok
      | succ u =>
        rw [List.getElem?_cons_succ]
        have harg : lb.backend_count + (u + 1)
            = (lb_core_add_backend lb c.host c.port c.weight c.allocOk).2.backend_count + u := by
          omega
        rw [harg]
        apply ih
        rw [hlist] at hj
        simpa using Nat.lt_of_succ_lt_succ (by simpa using hj)
    · have hlist : okBackendsFrom lb (c :: cs)
          = okBackendsFrom (lb_core_add_backend lb c.host c.port c.weight c.allocOk).2 cs := by
        show (if (lb_core_add_backend lb c.host c.port c.weight c.allocOk).1 = LbStatus.LB_OK
            then _ else _) = _
        rw [if_neg hok]
      have hun : (lb_core_add_backend lb c.host c.port c.weight c.allocOk).2 = lb :=
        add_backend_fail_unchanged lb c.host c.port c.weight c.allocOk hok
      have hrun : (runAdds lb (c :: cs)).2
          = (runAdds (lb_core_add_backend lb c.host c.port c.weight c.allocOk).2 cs).2 := rfl
      rw [hrun, hlist, hun]
      rw [hlist, hun] at hj
      exact ih lb j hj

theorem runAdds_append (l1 l2 : List AddCall) : ∀ lb : Core,
    (runAdds lb (l1 ++ l2)).2 = (runAdds (runAdds lb l1).2 l2).2 := by
  induction l1 with
  | nil =>
    intro lb
    rfl
  | cons c cs ih =>
    intro lb
    exact ih (lb_core_add_backend lb c.host c.port c.weight c.allocOk).2

/-- Claim C7: starting from a freshly created (empty) registry, after any
sequence of `lb_core_add_backend` calls the count equals the number of calls
that returned `LB_OK`; slots `0..count)` hold exactly the backends those
successful calls constructed, in call order; and every slot filled after a
prefix of the sequence still holds the same backend after the whole sequence
(entries are never moved). -/
theorem runAdds_registry_spec (lb : Core) (cs : List AddCall)
    (h0 : lb.backend_count = 0) :
    (runAdds lb cs).2.backend_count = (runAdds lb cs).1.count LbStatus.LB_OK ∧
    (∀ j, j < (runAdds lb cs).2.backend_count →
      (runAdds lb cs).2.backends j = (okBackendsFrom lb cs)[j]?) ∧
    (∀ m i, i < (runAdds lb (cs.take m)).2.backend_count →
      (runAdds lb cs).2.backends i = (runAdds lb (cs.take m)).2.backends i) := by
  refine ⟨?_, ?_, ?_⟩
  · rw [runAdds_count, h0, Nat.zero_add]
  · intro j hj
    have hj' : j < (okBackendsFrom lb cs).length := by
      rw [okBackendsFrom_length]
      rw [runAdds_count, h0, Nat.zero_add] at hj
      exact hj
    have h := runAdds_new_entries cs lb j hj'
    rw [h0, Nat.zero_add] at h
    exact h
  · intro m i hi
    conv_lhs => rw [← List.take_append_drop m cs, runAdds_append]
    exact runAdds_preserves (cs.drop m) _ i hi

/-- A call sequence mixing two successes with two invalid calls, for the C7
witness. -/
def c7Calls : List AddCall :=
  [ { host := some ['a'], port := 80, weight := 1, allocOk := true },
    { host := none, port := 80, weight := 1, allocOk := true },
    { host := some ['b'], port := 0, weight := 1, allocOk := true },
    { host := some ['c'], port := 81, weight := 0, allocOk := true } ]

/-- Witness for `runAdds_registry_spec`: the sequence `c7Calls` produces two
`LB_OK` statuses, the final count is 2, and slot 1 holds the backend of the
second successful call. -/
theorem runAdds_registry_spec_witness :
    (runAdds (freshCore 8080 LbAlgorithm.LB_ALGO_ROUNDROBIN) c7Calls).2.backend_count
      = (runAdds (freshCore 8080 LbAlgorithm.LB_ALGO_ROUNDROBIN) c7Calls).1.count
        LbStatus.LB_OK ∧
    (runAdds (freshCore 8080 LbAlgorithm.LB_ALGO_ROUNDROBIN) c7Calls).2.backends 1
      = some (mkBackend ['c'] 81 0) := by
  have h := runAdds_registry_spec (freshCore 8080 LbAlgorithm.LB_ALGO_ROUNDROBIN) c7Calls rfl
  refine ⟨h.1, ?_⟩
  have h2 := h.2.1 1 (by decide)
  rw [h2]
  decide

end UltraBalancer
